import Mathlib

/-!
Verification of the bevy_minesweeper board-plugin logic core.

The systems `uncover_tiles`, `trigger_event_handler` (systems/uncover.rs) and
`input_handling` (systems/input.rs), together with `create_board` / `spawn_tiles`
(lib.rs) and the event types (events.rs), are embedded below directly from the
source. The `Board` resource, `TileMap`, `Tile` and `Coordinates` types live in
files that are not part of the provided sources (resources/board.rs,
resources/tile_map.rs, resources/tile.rs, components); those are modelled from
the specification, as marked on each definition.

Modelling conventions:
- machine integers (u16, u8) are modelled as Nat; all arithmetic on them here is
  bounded by grid dimensions, so no wrap-around is reachable;
- the opaque ECS cover-entity handle attached to a coordinate is represented by
  the coordinate itself (handles are per-cell unique and never compared across
  cells); where entity identity versus coordinate matters (parent lookups in
  `uncover_tiles`), the entity type is kept abstract;
- Bevy `Commands` are deferred: component insertions and despawns issued during
  a frame take effect at the end of the frame.  A cover entity despawned in a
  frame no longer matches any query in later frames.
-/

/-- Grid position, from components (u16 fields modelled as Nat). -/
structure Coordinates where
  x : Nat
  y : Nat
deriving DecidableEq

/-- The eight relative offsets of the 3 by 3 block around a cell, excluding the
center, in row-major order. -/
def neighborDeltas : List (Int × Int) :=
  [(-1, -1), (0, -1), (1, -1), (-1, 0), (1, 0), (-1, 1), (0, 1), (1, 1)]

/-- Modelled from the spec: `Coordinate::neighbors` (components, not under src).
Up to eight in-bounds neighbors, deterministic row-major order. -/
def Coordinates.neighbors (c : Coordinates) (w h : Nat) : List Coordinates :=
  neighborDeltas.filterMap fun d =>
    let nx : Int := (c.x : Int) + d.1
    let ny : Int := (c.y : Int) + d.2
    if 0 ≤ nx ∧ nx < (w : Int) ∧ 0 ≤ ny ∧ ny < (h : Int) then
      some ⟨nx.toNat, ny.toNat⟩
    else none

/-- Cell content, modelled from the spec (resources/tile.rs not under src). -/
inductive Tile where
  | Bomb : Tile
  | BombNeighbor : Nat → Tile
  | Empty : Tile
deriving DecidableEq

/-- Modelled from the spec: `TileMap` (resources/tile_map.rs not under src).
The grid is determined by its dimensions and the list of bomb coordinates;
per-cell contents are derived (see `TileMap.tileAt`), which bakes in the
spec invariant that every non-bomb cell stores its true bomb-neighbor count. -/
structure TileMap where
  width : Nat
  height : Nat
  bombs : List Coordinates
deriving DecidableEq

/-- Modelled from the spec: `TileMap::empty` produces an all-empty grid and
fails (construction error) if width or height is 0; the failure is modelled as
`none` and propagates to the caller, aborting session start. -/
def TileMap.empty (w h : Nat) : Option TileMap :=
  if w = 0 ∨ h = 0 then none
  else some { width := w, height := h, bombs := [] }

/-- Number of bomb-tagged cells in the 8-neighborhood of a cell. -/
def TileMap.bombNeighborCount (tm : TileMap) (c : Coordinates) : Nat :=
  (c.neighbors tm.width tm.height).countP fun n => decide (n ∈ tm.bombs)

/-- The tile stored at a coordinate: bomb cells are tagged `Bomb`; a non-bomb
cell stores `BombNeighbor n` for its positive neighbor count, else `Empty`. -/
def TileMap.tileAt (tm : TileMap) (c : Coordinates) : Tile :=
  if c ∈ tm.bombs then Tile.Bomb
  else if tm.bombNeighborCount c = 0 then Tile.Empty
  else Tile.BombNeighbor (tm.bombNeighborCount c)

/-- All grid coordinates in spawn order: y outer (rows), x inner, as produced by
`tile_map.iter().enumerate()` with inner `line.iter().enumerate()`. -/
def allCoords (w h : Nat) : List Coordinates :=
  (List.range h).flatMap fun y => (List.range w).map fun x => ⟨x, y⟩

/-- Modelled from the spec: `TileMap::set_bombs` places `count` bombs at
distinct in-bounds cells sampled without replacement; the randomly shuffled
candidate order is an explicit parameter so the model stays deterministic.
When `count` exceeds the number of available cells the sampling implicitly
stops at the last cell (no duplicates are ever produced). -/
def TileMap.set_bombs (tm : TileMap) (order : List Coordinates) (count : Nat) : TileMap :=
  { tm with
    bombs :=
      ((order.filter fun c => decide (c.x < tm.width ∧ c.y < tm.height)).dedup).take count }

/-- Modelled from the spec: the `Board` resource (resources/board.rs not under
src).  `covered_tiles` is the coordinate-to-cover-handle map, kept here as the
list of covered coordinates in insertion order (the handle of a cell is the
cell's coordinate); `marked_tiles` is the flagged-cell list.  The world-space
`bounds`, `tile_size` and root `entity` fields only serve pointer resolution
and rendering and are abstracted out (resolution enters as an oracle below). -/
structure Board where
  tile_map : TileMap
  covered_tiles : List Coordinates
  marked_tiles : List Coordinates
deriving DecidableEq

/-- Modelled from the spec: `Board::tile_to_uncover` returns the cover handle
iff the cell is covered and not marked; pure lookup, no mutation. -/
def Board.tile_to_uncover (b : Board) (c : Coordinates) : Option Coordinates :=
  if c ∈ b.covered_tiles ∧ c ∉ b.marked_tiles then some c else none

/-- Modelled from the spec: `Board::try_uncover_tile` removes the cell from
`covered_tiles` (and from `marked_tiles` if present) returning the removed
cover handle, or returns none if the cell was already uncovered. -/
def Board.try_uncover_tile (b : Board) (c : Coordinates) : Option Coordinates × Board :=
  if c ∈ b.covered_tiles then
    (some c,
      { b with
        covered_tiles := b.covered_tiles.erase c
        marked_tiles := b.marked_tiles.erase c })
  else (none, b)

/-- Modelled from the spec: `Board::adjacent_covered_tiles` returns the
neighbors of a cell that are still covered. -/
def Board.adjacent_covered_tiles (b : Board) (c : Coordinates) : List Coordinates :=
  (c.neighbors b.tile_map.width b.tile_map.height).filter fun n =>
    decide (n ∈ b.covered_tiles)

/-- Modelled from the spec: `Board::is_completed` is true iff every coordinate
still covered holds a bomb. -/
def Board.is_completed (b : Board) : Bool :=
  b.covered_tiles.all fun c => decide (b.tile_map.tileAt c = Tile.Bomb)

/-- The four event types of events.rs, merged into one inductive so that the
set of events a system emits can be stated uniformly. -/
inductive GameEvent where
  | tileTrigger : Coordinates → GameEvent
  | tileMark : Coordinates → GameEvent
  | bombExplosion : GameEvent
  | boardCompleted : GameEvent
deriving DecidableEq

/-- Mouse buttons as matched by input_handling. -/
inductive MouseButton where
  | Left : MouseButton
  | Right : MouseButton
  | Other : MouseButton
deriving DecidableEq

/-- A raw mouse-button event (`MouseButtonInput`); `pressed` is true for
`ElementState::Pressed`. -/
structure MouseButtonInput where
  button : MouseButton
  pressed : Bool
deriving DecidableEq

/-- Embedding of `input_handling` (systems/input.rs).  `cursor_position` is the
window's cursor position when available and `mouse_position` is the board's
pointer-to-coordinate resolution (a Board method not under src, entering as an
oracle over an abstract position type `P`).  Returns the events sent.  The
right-click arm is stubbed in the source (a TODO comment) and sends nothing. -/
def input_handling (P : Type) (paused : Bool) (cursor_position : Option P)
    (mouse_position : P → Option Coordinates)
    (button_evr : List MouseButtonInput) : List GameEvent :=
  if paused = true then [] else
  button_evr.filterMap fun event =>
    if event.pressed then
      match cursor_position with
      | some pos =>
        match mouse_position pos with
        | some coordinates =>
          match event.button with
          | MouseButton.Left => some (GameEvent.tileTrigger coordinates)
          | MouseButton.Right => none
          | MouseButton.Other => none
        | none => none
      | none => none
    else none

/-- Embedding of `trigger_event_handler` (systems/uncover.rs).  For each
`TileTriggerEvent` read, inserts `Uncover` on the cover returned by
`tile_to_uncover`; returns the covers that received `Uncover`.  Returns
immediately when the `Paused` resource is set. -/
def trigger_event_handler (paused : Bool) (b : Board) (events : List GameEvent) :
    List Coordinates :=
  if paused = true then [] else
  events.filterMap fun e =>
    match e with
    | GameEvent.tileTrigger c => b.tile_to_uncover c
    | _ => none

/-- Accumulated effects of one run of `uncover_tiles` over the covers tagged
`Uncover`: the mutated Board, the despawned cover entities, the covers that
received an `Uncover` insertion, and the events sent (the source system has no
event writer, so `events` is never extended). -/
structure UncoverOut (E : Type) where
  board : Board
  despawned : List E
  inserted : List Coordinates
  events : List GameEvent

/-- Embedding of one iteration of the `uncover_tiles` loop (systems/uncover.rs)
on a tagged cover entity.  The cover is despawned unconditionally first; then
the parent tile lookup runs: on failure the error is logged and the iteration
continues; on success `try_uncover_tile` runs, a bomb parent only logs
"Boom !" (the explosion event is a TODO in the source), and an empty parent
(no `Bomb`, no `BombNeighbor` component) inserts `Uncover` on every cover from
`adjacent_covered_tiles` of the already-updated board. -/
def uncoverItem (E : Type) (st : UncoverOut E) (item : E × Option Coordinates) :
    UncoverOut E :=
  let st1 : UncoverOut E := { st with despawned := st.despawned ++ [item.1] }
  match item.2 with
  | none => st1
  | some coords =>
    let b := (st1.board.try_uncover_tile coords).2
    match st1.board.tile_map.tileAt coords with
    | Tile.Bomb => { st1 with board := b }
    | Tile.BombNeighbor _ => { st1 with board := b }
    | Tile.Empty =>
      { st1 with board := b, inserted := st1.inserted ++ b.adjacent_covered_tiles coords }

/-- Embedding of `uncover_tiles` (systems/uncover.rs): iterate over all covers
currently tagged `Uncover`, each paired with the result of looking up its
parent tile's coordinates (none when the parent query fails). -/
def uncover_tiles (E : Type) (b : Board) (tagged : List (E × Option Coordinates)) :
    UncoverOut E :=
  tagged.foldl (uncoverItem E) { board := b, despawned := [], inserted := [], events := [] }

/-- One engine frame of the flood fill: `uncover_tiles` runs on the covers
tagged `Uncover` (all parent lookups succeed; the cover handle of a cell is the
cell itself).  Covers that received `Uncover` during the frame but were also
despawned in it (they were processed and removed from `covered_tiles`) do not
exist next frame; the query lists each remaining tagged cover once, hence the
filter by `covered_tiles` and the dedup. -/
def uncoverFrame (b : Board) (pending : List Coordinates) : Board × List Coordinates :=
  let out := uncover_tiles Coordinates b (pending.map fun c => (c, some c))
  (out.board,
    (out.inserted.filter fun c => decide (c ∈ out.board.covered_tiles)).dedup)

/-- Iterate `uncoverFrame` for at most `n` frames, stopping when no cover is
tagged `Uncover` any more. -/
def runFrames : Nat → Board × List Coordinates → Board × List Coordinates
  | 0, st => st
  | n + 1, st => if st.2 = [] then st else runFrames n (uncoverFrame st.1 st.2)

/-- Session-start configuration (resources/board_options.rs not under src;
fields from the spec; rendering-only fields omitted). -/
structure BoardOptions where
  map_width : Nat
  map_height : Nat
  bomb_count : Nat
  safe_start : Bool

/-- One cell's processing in `spawn_tiles` (lib.rs): insert the cell's cover
entry into `covered_tiles`, and record this cover as the safe-start entity if
none has been recorded yet and the tile is empty. -/
def spawnStep (tm : TileMap) (st : List Coordinates × Option Coordinates)
    (c : Coordinates) : List Coordinates × Option Coordinates :=
  (st.1 ++ [c],
    match st.2 with
    | some e => some e
    | none => if tm.tileAt c = Tile.Empty then some c else none)

/-- Embedding of `spawn_tiles` (lib.rs): iterate rows (y) then columns (x),
inserting one cover entry per cell into `covered_tiles` and recording the
first empty tile's cover as the safe-start entity. -/
def spawn_tiles (tm : TileMap) : List Coordinates × Option Coordinates :=
  (allCoords tm.width tm.height).foldl (spawnStep tm) ([], none)

/-- Embedding of `create_board` (lib.rs): build the tile map (session start
aborts, yielding `none`, when `TileMap::empty` rejects the dimensions), place
the bombs, spawn the tiles collecting `covered_tiles` and the safe-start
cover, insert the `Board` resource with an empty `marked_tiles`, and, when
`safe_start` is set and a safe-start cover was found, insert `Uncover` on it.
Returns the board and the list of covers tagged `Uncover` at the end of board
creation. -/
def create_board (options : BoardOptions) (order : List Coordinates) :
    Option (Board × List Coordinates) :=
  (TileMap.empty options.map_width options.map_height).map fun tm =>
    let tile_map := tm.set_bombs order options.bomb_count
    let spawned := spawn_tiles tile_map
    let board : Board :=
      { tile_map := tile_map, covered_tiles := spawned.1, marked_tiles := [] }
    let pending :=
      if options.safe_start then
        match spawned.2 with
        | some e => [e]
        | none => []
      else []
    (board, pending)

/-- A freshly created board: every cell covered, nothing marked. -/
def freshBoard (tm : TileMap) : Board :=
  { tile_map := tm, covered_tiles := allCoords tm.width tm.height, marked_tiles := [] }

/-- The flood-fill run triggered by tagging the cover of one cell on a fresh
board, iterated until no cover is tagged (the covered-cell count bounds the
number of frames needed). -/
def floodResult (tm : TileMap) (c0 : Coordinates) : Board × List Coordinates :=
  runFrames (freshBoard tm).covered_tiles.length (freshBoard tm, [c0])

/-- The systems registered by `BoardPlugin::build` (lib.rs). -/
inductive SystemKind where
  | inputHandling : SystemKind
  | triggerEventHandler : SystemKind
  | uncoverTiles : SystemKind
  | markTiles : SystemKind
deriving DecidableEq

/-- Status of the plugin's `running_state` in the engine state stack. -/
inductive StateStatus where
  | active : StateStatus
  | inactiveInStack : StateStatus
  | notInStack : StateStatus
deriving DecidableEq

/-- Scheduling from `BoardPlugin::build` (lib.rs): `input_handling` and
`trigger_event_handler` are registered `on_update` (run only while the running
state is active); `uncover_tiles` and `mark_tiles` are registered
`on_in_stack_update` (run whenever the running state is in the stack, active
or not). -/
def systemRuns : SystemKind → StateStatus → Bool
  | SystemKind.inputHandling, StateStatus.active => true
  | SystemKind.inputHandling, _ => false
  | SystemKind.triggerEventHandler, StateStatus.active => true
  | SystemKind.triggerEventHandler, _ => false
  | SystemKind.uncoverTiles, StateStatus.active => true
  | SystemKind.uncoverTiles, StateStatus.inactiveInStack => true
  | SystemKind.uncoverTiles, StateStatus.notInStack => false
  | SystemKind.markTiles, StateStatus.active => true
  | SystemKind.markTiles, StateStatus.inactiveInStack => true
  | SystemKind.markTiles, StateStatus.notInStack => false

/-- Result of one whole engine frame: board after `uncover_tiles`, covers
tagged `Uncover` for the next frame, events emitted this frame. -/
structure FrameOut where
  board : Board
  pending : List Coordinates
  events : List GameEvent
deriving DecidableEq

/-- One engine frame with all three systems while the running state is active:
`input_handling` emits trigger events, `trigger_event_handler` reads them and
tags covers, `uncover_tiles` processes the covers tagged in earlier frames.
Command insertions are deferred, so covers tagged this frame are processed
next frame; a tagged cover despawned this frame is gone. -/
def worldFrame (P : Type) (paused : Bool) (cursor : Option P)
    (resolve : P → Option Coordinates) (clicks : List MouseButtonInput)
    (b : Board) (pending : List Coordinates) : FrameOut :=
  let events := input_handling P paused cursor resolve clicks
  let triggered := trigger_event_handler paused b events
  let stepped := uncoverFrame b pending
  { board := stepped.1
    pending :=
      (stepped.2 ++ triggered.filter fun c => decide (c ∈ stepped.1.covered_tiles)).dedup
    events := events }

/-- Iterated engine frames with the `Paused` resource set (the per-frame raw
inputs are irrelevant while paused; fixed inputs are threaded for shape). -/
def pausedRun (P : Type) (cursor : Option P) (resolve : P → Option Coordinates)
    (clicks : List MouseButtonInput) :
    Nat → Board × List Coordinates → Board × List Coordinates
  | 0, st => st
  | n + 1, st =>
    if st.2 = [] then st
    else
      let o := worldFrame P true cursor resolve clicks st.1 st.2
      pausedRun P cursor resolve clicks n (o.board, o.pending)

/-! ### Basic grid lemmas -/

theorem mem_allCoords (w h : Nat) (c : Coordinates) :
    c ∈ allCoords w h ↔ c.x < w ∧ c.y < h := by
  cases c with
  | mk x y =>
    simp only [allCoords, List.mem_flatMap, List.mem_map, List.mem_range]
    constructor
    · rintro ⟨y', hy', x', hx', h⟩
      cases h
      exact ⟨hx', hy'⟩
    · rintro ⟨hx, hy⟩
      exact ⟨y, hy, x, hx, rfl⟩

theorem nodup_allCoords (w h : Nat) : (allCoords w h).Nodup := by
  rw [allCoords, List.nodup_flatMap]
  refine ⟨fun y _ => ?_, ?_⟩
  · exact (List.nodup_range w).map (fun a b hab => by cases hab; rfl)
  · refine (List.nodup_range h).imp ?_
    intro a b hab c hca hcb
    simp only [List.mem_map, List.mem_range] at hca hcb
    obtain ⟨xa, _, rfl⟩ := hca
    obtain ⟨xb, _, h⟩ := hcb
    cases h
    exact hab rfl

theorem length_allCoords (w h : Nat) : (allCoords w h).length = w * h := by
  induction h with
  | zero => simp [allCoords]
  | succ n ih =>
    rw [allCoords, List.range_succ, List.flatMap_append] at *
    simp only [List.length_append, ih, List.flatMap_cons, List.flatMap_nil,
      List.append_nil, List.length_map, List.length_range]
    ring

theorem neighbors_bounds {w h : Nat} {c n : Coordinates}
    (hn : n ∈ c.neighbors w h) : n.x < w ∧ n.y < h := by
  simp only [Coordinates.neighbors, List.mem_filterMap] at hn
  obtain ⟨d, _, hd⟩ := hn
  split at hd
  · rename_i hcond
    cases hd
    obtain ⟨h1, h2, h3, h4⟩ := hcond
    constructor <;> simp <;> omega
  · exact absurd hd (by simp)

theorem tileAt_eq_bomb_iff (tm : TileMap) (c : Coordinates) :
    tm.tileAt c = Tile.Bomb ↔ c ∈ tm.bombs := by
  unfold TileMap.tileAt
  split
  · rename_i hmem
    simp [hmem]
  · rename_i hmem
    split <;> simp [hmem]

theorem empty_no_bomb_neighbor {tm : TileMap} {c n : Coordinates}
    (hE : tm.tileAt c = Tile.Empty)
    (hn : n ∈ c.neighbors tm.width tm.height) : tm.tileAt n ≠ Tile.Bomb := by
  intro hbomb
  rw [tileAt_eq_bomb_iff] at hbomb
  unfold TileMap.tileAt at hE
  split at hE
  · exact absurd hE (by simp)
  · split at hE
    · rename_i hcnt
      unfold TileMap.bombNeighborCount at hcnt
      rw [List.countP_eq_zero] at hcnt
      exact absurd (decide_eq_true hbomb) (by simpa using hcnt n hn)
    · exact absurd hE (by simp)

/-! ### The empty-connected region -/

/-- One flood-fill expansion hop: from an empty cell to one of its in-bounds
neighbors. -/
def emptyStep (tm : TileMap) (a b : Coordinates) : Prop :=
  tm.tileAt a = Tile.Empty ∧ b ∈ a.neighbors tm.width tm.height

/-- The region the flood fill is specified to uncover: cells reachable from
the trigger cell through chains of empty cells (every link starts at an empty
cell, so the region is the connected empty component of the trigger plus its
bordering numbered cells). -/
def reaches (tm : TileMap) (c0 c : Coordinates) : Prop :=
  Relation.ReflTransGen (emptyStep tm) c0 c

theorem reaches_not_bomb {tm : TileMap} {c0 c : Coordinates}
    (hE : tm.tileAt c0 = Tile.Empty) (h : reaches tm c0 c) :
    tm.tileAt c ≠ Tile.Bomb := by
  induction h with
  | refl => simp [hE]
  | tail _ hstep _ => exact empty_no_bomb_neighbor hstep.1 hstep.2

theorem reaches_bounds {tm : TileMap} {c0 c : Coordinates}
    (hx : c0.x < tm.width) (hy : c0.y < tm.height) (h : reaches tm c0 c) :
    c.x < tm.width ∧ c.y < tm.height := by
  induction h with
  | refl => exact ⟨hx, hy⟩
  | tail _ hstep _ => exact neighbors_bounds hstep.2

/-! ### uncover_tiles bookkeeping lemmas -/

theorem try_uncover_covered_sublist (b : Board) (c : Coordinates) :
    List.Sublist ((b.try_uncover_tile c).2.covered_tiles) b.covered_tiles := by
  unfold Board.try_uncover_tile
  split
  · exact List.erase_sublist _ _
  · exact List.Sublist.refl _

theorem try_uncover_tile_map (b : Board) (c : Coordinates) :
    (b.try_uncover_tile c).2.tile_map = b.tile_map := by
  unfold Board.try_uncover_tile
  split <;> rfl

theorem try_uncover_covered_of_mem (b : Board) (c : Coordinates)
    (hc : c ∈ b.covered_tiles) :
    (b.try_uncover_tile c).2.covered_tiles = b.covered_tiles.erase c := by
  unfold Board.try_uncover_tile
  rw [if_pos hc]

theorem uncoverItem_none_eq (E : Type) (st : UncoverOut E) (e : E) :
    uncoverItem E st (e, none) = { st with despawned := st.despawned ++ [e] } := rfl

theorem uncoverItem_board (E : Type) (st : UncoverOut E) (e : E) (c : Coordinates) :
    (uncoverItem E st (e, some c)).board = (st.board.try_uncover_tile c).2 := by
  unfold uncoverItem
  cases h : st.board.tile_map.tileAt c <;> simp [h]

theorem uncoverItem_inserted_eq (E : Type) (st : UncoverOut E) (e : E) (c : Coordinates) :
    (uncoverItem E st (e, some c)).inserted =
      st.inserted ++
        (match st.board.tile_map.tileAt c with
          | Tile.Empty => ((st.board.try_uncover_tile c).2).adjacent_covered_tiles c
          | _ => []) := by
  unfold uncoverItem
  cases h : st.board.tile_map.tileAt c <;> simp [h]

theorem uncoverItem_despawned (E : Type) (st : UncoverOut E) (it : E × Option Coordinates) :
    (uncoverItem E st it).despawned = st.despawned ++ [it.1] := by
  rcases it with ⟨e, o⟩
  cases o with
  | none => rfl
  | some c =>
    unfold uncoverItem
    cases h : st.board.tile_map.tileAt c <;> simp [h]

theorem uncoverItem_events (E : Type) (st : UncoverOut E) (it : E × Option Coordinates) :
    (uncoverItem E st it).events = st.events := by
  rcases it with ⟨e, o⟩
  cases o with
  | none => rfl
  | some c =>
    unfold uncoverItem
    cases h : st.board.tile_map.tileAt c <;> simp [h]

theorem uncoverItem_covered_sublist (E : Type) (st : UncoverOut E)
    (it : E × Option Coordinates) :
    List.Sublist ((uncoverItem E st it).board.covered_tiles) st.board.covered_tiles := by
  rcases it with ⟨e, o⟩
  cases o with
  | none => exact List.Sublist.refl _
  | some c =>
    rw [uncoverItem_board]
    exact try_uncover_covered_sublist _ _

theorem uncover_fold_covered_sublist (E : Type) (tagged : List (E × Option Coordinates)) :
    ∀ st : UncoverOut E,
      List.Sublist ((tagged.foldl (uncoverItem E) st).board.covered_tiles) st.board.covered_tiles := by
  induction tagged with
  | nil => intro st; exact List.Sublist.refl _
  | cons it rest ih =>
    intro st
    exact (ih (uncoverItem E st it)).trans (uncoverItem_covered_sublist E st it)

theorem uncover_fold_despawned (E : Type) (tagged : List (E × Option Coordinates)) :
    ∀ st : UncoverOut E,
      (tagged.foldl (uncoverItem E) st).despawned = st.despawned ++ tagged.map Prod.fst := by
  induction tagged with
  | nil => intro st; simp
  | cons it rest ih =>
    intro st
    rw [List.foldl_cons, ih, uncoverItem_despawned]
    simp

theorem uncover_fold_events (E : Type) (tagged : List (E × Option Coordinates)) :
    ∀ st : UncoverOut E, (tagged.foldl (uncoverItem E) st).events = st.events := by
  induction tagged with
  | nil => intro st; rfl
  | cons it rest ih =>
    intro st
    rw [List.foldl_cons, ih, uncoverItem_events]

theorem uncover_tiles_despawned (E : Type) (b : Board)
    (tagged : List (E × Option Coordinates)) :
    (uncover_tiles E b tagged).despawned = tagged.map Prod.fst := by
  unfold uncover_tiles
  rw [uncover_fold_despawned]
  rfl

theorem uncover_tiles_events (E : Type) (b : Board)
    (tagged : List (E × Option Coordinates)) :
    (uncover_tiles E b tagged).events = [] := by
  unfold uncover_tiles
  rw [uncover_fold_events]

theorem mem_adjacent_covered (b : Board) (c n : Coordinates) :
    n ∈ b.adjacent_covered_tiles c ↔
      n ∈ c.neighbors b.tile_map.width b.tile_map.height ∧ n ∈ b.covered_tiles := by
  simp [Board.adjacent_covered_tiles, List.mem_filter]

/-! ### The flood-fill invariant

`Mid tm c0 b s acc` relates a board mid-flood-fill to the trigger cell `c0`:
`s` are the covers still to be processed (of the current frame's tagged set),
`acc` the covers that have received `Uncover` so far this frame.  Between
frames the invariant is used with `acc = []` and `s` the tagged set. -/

structure Mid (tm : TileMap) (c0 : Coordinates) (b : Board)
    (s acc : List Coordinates) : Prop where
  tmEq : b.tile_map = tm
  covNodup : b.covered_tiles.Nodup
  covBound : ∀ c ∈ b.covered_tiles, c.x < tm.width ∧ c.y < tm.height
  sNodup : s.Nodup
  sCov : ∀ c ∈ s, c ∈ b.covered_tiles
  sound : ∀ c : Coordinates, c.x < tm.width → c.y < tm.height →
    c ∉ b.covered_tiles → reaches tm c0 c
  sReach : ∀ c ∈ s, reaches tm c0 c
  accReach : ∀ c ∈ acc, reaches tm c0 c
  closure : ∀ e : Coordinates, e.x < tm.width → e.y < tm.height →
    tm.tileAt e = Tile.Empty → e ∉ b.covered_tiles →
    ∀ n ∈ e.neighbors tm.width tm.height,
      n ∉ b.covered_tiles ∨ n ∈ s ∨ n ∈ acc
  origin : c0 ∉ b.covered_tiles ∨ c0 ∈ s ∨ c0 ∈ acc

theorem step_mid (tm : TileMap) (c0 : Coordinates) (st : UncoverOut Coordinates)
    (c : Coordinates) (rest : List Coordinates)
    (h : Mid tm c0 st.board (c :: rest) st.inserted) :
    Mid tm c0 (uncoverItem Coordinates st (c, some c)).board rest
      (uncoverItem Coordinates st (c, some c)).inserted := by
  have hc : c ∈ st.board.covered_tiles := h.sCov c (List.mem_cons_self _ _)
  have hcreach : reaches tm c0 c := h.sReach c (List.mem_cons_self _ _)
  have hboard := uncoverItem_board Coordinates st c c
  have hcov : (uncoverItem Coordinates st (c, some c)).board.covered_tiles
      = st.board.covered_tiles.erase c := by
    rw [hboard, try_uncover_covered_of_mem _ _ hc]
  have htm : (uncoverItem Coordinates st (c, some c)).board.tile_map = tm := by
    rw [hboard, try_uncover_tile_map]
    exact h.tmEq
  have hins := uncoverItem_inserted_eq Coordinates st c c
  -- the extra covers tagged while processing c, and their characterization
  set extra :=
    (match st.board.tile_map.tileAt c with
      | Tile.Empty => ((st.board.try_uncover_tile c).2).adjacent_covered_tiles c
      | _ => ([] : List Coordinates)) with hextra_def
  have hextra_mem : ∀ n ∈ extra, tm.tileAt c = Tile.Empty ∧
      n ∈ c.neighbors tm.width tm.height ∧ n ∈ st.board.covered_tiles.erase c := by
    intro n hn
    rw [hextra_def] at hn
    cases htile : st.board.tile_map.tileAt c with
    | Empty =>
      rw [htile] at hn
      rw [mem_adjacent_covered, try_uncover_tile_map, try_uncover_covered_of_mem _ _ hc]
        at hn
      rw [h.tmEq] at htile hn
      exact ⟨htile, hn.1, hn.2⟩
    | Bomb => rw [htile] at hn; cases hn
    | BombNeighbor k => rw [htile] at hn; cases hn
  have hextra_cov : tm.tileAt c = Tile.Empty →
      ∀ n ∈ c.neighbors tm.width tm.height,
        n ∈ st.board.covered_tiles.erase c → n ∈ extra := by
    intro htile n hn hncov
    rw [hextra_def]
    rw [← h.tmEq] at htile
    rw [htile]
    rw [mem_adjacent_covered, try_uncover_tile_map, try_uncover_covered_of_mem _ _ hc,
      h.tmEq]
    exact ⟨hn, hncov⟩
  have hnotc : c ∉ st.board.covered_tiles.erase c := h.covNodup.not_mem_erase
  refine ⟨htm, ?_, ?_, ?_, ?_, ?_, ?_, ?_, ?_, ?_⟩
  · rw [hcov]
    exact (List.erase_sublist _ _).nodup h.covNodup
  · intro c' hc'
    rw [hcov] at hc'
    exact h.covBound c' (List.mem_of_mem_erase hc')
  · exact (List.nodup_cons.1 h.sNodup).2
  · intro c' hc'
    rw [hcov]
    have hne : c' ≠ c := by
      intro he
      exact (List.nodup_cons.1 h.sNodup).1 (he ▸ hc')
    exact (List.mem_erase_of_ne hne).2 (h.sCov c' (List.mem_cons_of_mem _ hc'))
  · intro c' hx hy hnc
    rw [hcov] at hnc
    by_cases he : c' = c
    · exact he ▸ hcreach
    · exact h.sound c' hx hy fun hmem => hnc ((List.mem_erase_of_ne he).2 hmem)
  · intro c' hc'
    exact h.sReach c' (List.mem_cons_of_mem _ hc')
  · intro n hn
    rw [hins] at hn
    rw [List.mem_append] at hn
    rcases hn with hn | hn
    · exact h.accReach n hn
    · obtain ⟨htile, hnb, _⟩ := hextra_mem n hn
      exact hcreach.tail ⟨htile, hnb⟩
  · intro e hx hy htile hne n hn
    rw [hins, hcov]
    rw [hcov] at hne
    by_cases hec : e = c
    · subst hec
      by_cases hncov : n ∈ st.board.covered_tiles.erase e
      · right; right
        rw [List.mem_append]
        exact Or.inr (hextra_cov htile n hn hncov)
      · exact Or.inl hncov
    · have hne' : e ∉ st.board.covered_tiles := by
        intro hmem
        exact hne ((List.mem_erase_of_ne hec).2 hmem)
      rcases h.closure e hx hy htile hne' n hn with hcase | hcase | hcase
      · left
        intro hmem
        exact hcase (List.mem_of_mem_erase hmem)
      · rcases List.mem_cons.1 hcase with rfl | hmem
        · exact Or.inl hnotc
        · exact Or.inr (Or.inl hmem)
      · right; right
        rw [List.mem_append]
        exact Or.inl hcase
  · rw [hins, hcov]
    rcases h.origin with hcase | hcase | hcase
    · left
      intro hmem
      exact hcase (List.mem_of_mem_erase hmem)
    · rcases List.mem_cons.1 hcase with rfl | hmem
      · exact Or.inl hnotc
      · exact Or.inr (Or.inl hmem)
    · right; right
      rw [List.mem_append]
      exact Or.inl hcase

theorem fold_mid (tm : TileMap) (c0 : Coordinates) (s : List Coordinates) :
    ∀ st : UncoverOut Coordinates, Mid tm c0 st.board s st.inserted →
      Mid tm c0
        ((s.foldl (fun a c => uncoverItem Coordinates a (c, some c)) st)).board []
        ((s.foldl (fun a c => uncoverItem Coordinates a (c, some c)) st)).inserted := by
  induction s with
  | nil => intro st h; exact h
  | cons c rest ih =>
    intro st h
    rw [List.foldl_cons]
    exact ih _ (step_mid tm c0 st c rest h)

theorem frame_mid (tm : TileMap) (c0 : Coordinates) (b : Board)
    (pending : List Coordinates) (h : Mid tm c0 b pending []) :
    Mid tm c0 (uncoverFrame b pending).1 (uncoverFrame b pending).2 [] := by
  have hmid : Mid tm c0
      (uncover_tiles Coordinates b (pending.map fun c => (c, some c))).board []
      (uncover_tiles Coordinates b (pending.map fun c => (c, some c))).inserted := by
    unfold uncover_tiles
    rw [List.foldl_map]
    exact fold_mid tm c0 pending
      { board := b, despawned := [], inserted := [], events := [] } h
  set out := uncover_tiles Coordinates b (pending.map fun c => (c, some c)) with hout
  have h1 : (uncoverFrame b pending).1 = out.board := rfl
  have h2 : (uncoverFrame b pending).2
      = (out.inserted.filter fun c => decide (c ∈ out.board.covered_tiles)).dedup := rfl
  rw [h1, h2]
  refine ⟨hmid.tmEq, hmid.covNodup, hmid.covBound, List.nodup_dedup _, ?_, hmid.sound,
    ?_, ?_, ?_, ?_⟩
  · intro n hn
    exact of_decide_eq_true (List.mem_filter.1 (List.mem_dedup.1 hn)).2
  · intro n hn
    exact hmid.accReach n (List.mem_filter.1 (List.mem_dedup.1 hn)).1
  · intro n hn
    exact absurd hn (List.not_mem_nil n)
  · intro e hx hy ht hne n hnb
    rcases hmid.closure e hx hy ht hne n hnb with hcase | hcase | hcase
    · exact Or.inl hcase
    · exact absurd hcase (List.not_mem_nil n)
    · by_cases hm : n ∈ out.board.covered_tiles
      · refine Or.inr (Or.inl ?_)
        rw [List.mem_dedup, List.mem_filter]
        exact ⟨hcase, decide_eq_true hm⟩
      · exact Or.inl hm
  · rcases hmid.origin with hcase | hcase | hcase
    · exact Or.inl hcase
    · exact absurd hcase (List.not_mem_nil c0)
    · by_cases hm : c0 ∈ out.board.covered_tiles
      · refine Or.inr (Or.inl ?_)
        rw [List.mem_dedup, List.mem_filter]
        exact ⟨hcase, decide_eq_true hm⟩
      · exact Or.inl hm

/-! ### Termination -/

theorem frame_covered_lt (b : Board) (pending : List Coordinates)
    (hne : pending ≠ []) (hsub : ∀ c ∈ pending, c ∈ b.covered_tiles) :
    (uncoverFrame b pending).1.covered_tiles.length < b.covered_tiles.length := by
  cases pending with
  | nil => exact absurd rfl hne
  | cons c rest =>
    have hc : c ∈ b.covered_tiles := hsub c (List.mem_cons_self _ _)
    have h1 : (uncoverFrame b (c :: rest)).1
        = ((rest.map fun c => (c, some c)).foldl (uncoverItem Coordinates)
            (uncoverItem Coordinates
              { board := b, despawned := [], inserted := [], events := [] }
              (c, some c))).board := rfl
    have hstep : (uncoverItem Coordinates
        { board := b, despawned := [], inserted := [], events := [] }
        (c, some c)).board.covered_tiles = b.covered_tiles.erase c := by
      rw [uncoverItem_board]
      exact try_uncover_covered_of_mem _ _ hc
    have hsub2 := (uncover_fold_covered_sublist Coordinates
      (rest.map fun c => (c, some c))
      (uncoverItem Coordinates
        { board := b, despawned := [], inserted := [], events := [] }
        (c, some c))).length_le
    rw [hstep, List.length_erase_of_mem hc] at hsub2
    rw [h1]
    have hpos : 0 < b.covered_tiles.length := List.length_pos.2 (List.ne_nil_of_mem hc)
    omega

theorem frame_pending_sub (b : Board) (pending : List Coordinates) :
    ∀ c ∈ (uncoverFrame b pending).2, c ∈ (uncoverFrame b pending).1.covered_tiles := by
  intro c hc
  exact of_decide_eq_true (List.mem_filter.1 (List.mem_dedup.1 hc)).2

theorem drain (n : Nat) : ∀ st : Board × List Coordinates,
    (∀ c ∈ st.2, c ∈ st.1.covered_tiles) →
    st.1.covered_tiles.length ≤ n → (runFrames n st).2 = [] := by
  induction n with
  | zero =>
    intro st hsub hlen
    have hcov : st.1.covered_tiles = [] :=
      List.length_eq_zero.1 (Nat.le_zero.1 hlen)
    have hp : st.2 = [] := by
      rw [List.eq_nil_iff_forall_not_mem]
      intro c hc
      have := hsub c hc
      rw [hcov] at this
      exact absurd this (List.not_mem_nil c)
    simpa [runFrames] using hp
  | succ n ih =>
    intro st hsub hlen
    by_cases hp : st.2 = []
    · simp [runFrames, hp]
    · rw [runFrames, if_neg hp]
      refine ih _ (frame_pending_sub st.1 st.2) ?_
      have := frame_covered_lt st.1 st.2 hp hsub
      omega

theorem run_mid (tm : TileMap) (c0 : Coordinates) (n : Nat) :
    ∀ (b : Board) (p : List Coordinates), Mid tm c0 b p [] →
      Mid tm c0 (runFrames n (b, p)).1 (runFrames n (b, p)).2 [] := by
  induction n with
  | zero => intro b p h; exact h
  | succ n ih =>
    intro b p h
    by_cases hp : p = []
    · rw [runFrames]
      simp only [hp, if_pos]
      exact hp ▸ h
    · rw [runFrames, if_neg hp]
      exact ih _ _ (frame_mid tm c0 b p h)

theorem initial_mid (tm : TileMap) (c0 : Coordinates)
    (hx : c0.x < tm.width) (hy : c0.y < tm.height) :
    Mid tm c0 (freshBoard tm) [c0] [] := by
  refine ⟨rfl, nodup_allCoords _ _, ?_, List.nodup_singleton _, ?_, ?_, ?_, ?_, ?_, ?_⟩
  · intro c hc
    exact (mem_allCoords _ _ _).1 hc
  · intro c hc
    rcases List.mem_singleton.1 hc with rfl
    exact (mem_allCoords _ _ _).2 ⟨hx, hy⟩
  · intro c hcx hcy hnc
    exact absurd ((mem_allCoords _ _ _).2 ⟨hcx, hcy⟩) hnc
  · intro c hc
    rcases List.mem_singleton.1 hc with rfl
    exact Relation.ReflTransGen.refl
  · intro c hc
    exact absurd hc (List.not_mem_nil c)
  · intro e hex hey _ hne _ _
    exact absurd ((mem_allCoords _ _ _).2 ⟨hex, hey⟩) hne
  · exact Or.inr (Or.inl (List.mem_singleton.2 rfl))

theorem final_uncovered (tm : TileMap) (c0 : Coordinates) (bF : Board)
    (hmid : Mid tm c0 bF [] []) (hx : c0.x < tm.width) (hy : c0.y < tm.height) :
    ∀ c : Coordinates, reaches tm c0 c → c ∉ bF.covered_tiles := by
  intro c hr
  induction hr with
  | refl =>
    rcases hmid.origin with h | h | h
    · exact h
    · exact absurd h (List.not_mem_nil c0)
    · exact absurd h (List.not_mem_nil c0)
  | tail hr hstep ih =>
    rename_i mid last
    have hb := reaches_bounds hx hy hr
    rcases hmid.closure mid hb.1 hb.2 hstep.1 ih last hstep.2 with h | h | h
    · exact h
    · exact absurd h (List.not_mem_nil last)
    · exact absurd h (List.not_mem_nil last)

/-- C4: on any finite grid, triggering uncover on an in-bounds `Empty` cell of
a fresh board terminates within `covered_tiles.length` frames (the worklist of
`Uncover`-tagged covers empties), the cells uncovered are exactly those
reachable from the trigger through chains of empty cells (the connected empty
region plus its bordering `BombNeighbor` cells), and every `Bomb` cell is
still covered at the end. -/
theorem flood_fill_exact (tm : TileMap) (c0 : Coordinates)
    (hx : c0.x < tm.width) (hy : c0.y < tm.height)
    (hE : tm.tileAt c0 = Tile.Empty) :
    (floodResult tm c0).2 = [] ∧
    (∀ c : Coordinates, c.x < tm.width → c.y < tm.height →
      (c ∉ (floodResult tm c0).1.covered_tiles ↔ reaches tm c0 c)) ∧
    (∀ c : Coordinates, tm.tileAt c = Tile.Bomb → c.x < tm.width → c.y < tm.height →
      c ∈ (floodResult tm c0).1.covered_tiles) := by
  have hinit := initial_mid tm c0 hx hy
  have hsub : ∀ c ∈ ((freshBoard tm, [c0]) : Board × List Coordinates).2,
      c ∈ ((freshBoard tm, [c0]) : Board × List Coordinates).1.covered_tiles := by
    intro c hc
    rcases List.mem_singleton.1 hc with rfl
    exact (mem_allCoords _ _ _).2 ⟨hx, hy⟩
  have hdrain : (floodResult tm c0).2 = [] :=
    drain ((freshBoard tm).covered_tiles.length) (freshBoard tm, [c0]) hsub (le_refl _)
  have hmid : Mid tm c0 (floodResult tm c0).1 (floodResult tm c0).2 [] :=
    run_mid tm c0 ((freshBoard tm).covered_tiles.length) (freshBoard tm) [c0] hinit
  rw [hdrain] at hmid
  refine ⟨hdrain, ?_, ?_⟩
  · intro c hcx hcy
    constructor
    · intro hnc
      exact hmid.sound c hcx hcy hnc
    · intro hr
      exact final_uncovered tm c0 _ hmid hx hy c hr
  · intro c hbomb hcx hcy
    by_contra hnc
    exact reaches_not_bomb hE (hmid.sound c hcx hcy hnc) hbomb

/-- A 2 by 2 bombless map built through the construction pipeline:
`TileMap.empty 2 2` succeeds on these nonzero dimensions and `getD` merely
unwraps the successful result. -/
def tmTwoEmpty : TileMap :=
  ((TileMap.empty 2 2).getD { width := 2, height := 2, bombs := [] }).set_bombs
    (allCoords 2 2) 0

theorem flood_fill_exact_witness :
    ((⟨0, 0⟩ : Coordinates).x < tmTwoEmpty.width ∧
      (⟨0, 0⟩ : Coordinates).y < tmTwoEmpty.height ∧
      tmTwoEmpty.tileAt ⟨0, 0⟩ = Tile.Empty) ∧
    (floodResult tmTwoEmpty ⟨0, 0⟩).2 = [] :=
  ⟨⟨by decide, by decide, by decide⟩,
    (flood_fill_exact tmTwoEmpty ⟨0, 0⟩ (by decide) (by decide) (by decide)).1⟩

/-- A 1 by 1 map whose single cell is a bomb, built through the construction
pipeline (`TileMap.empty 1 1` succeeds; `getD` merely unwraps it). -/
def tmOneBomb : TileMap :=
  ((TileMap.empty 1 1).getD { width := 1, height := 1, bombs := [] }).set_bombs
    (allCoords 1 1) 1

/-- A 1 by 1 map whose single cell is empty, built through the construction
pipeline (`TileMap.empty 1 1` succeeds; `getD` merely unwraps it). -/
def tmOneEmpty : TileMap :=
  ((TileMap.empty 1 1).getD { width := 1, height := 1, bombs := [] }).set_bombs
    (allCoords 1 1) 0

/-- C1: when `uncover_tiles` processes an `Uncover`-tagged cover, a parent tile
carrying neither a `Bomb` nor a `BombNeighbor` component (a `Tile::Empty`
cell) inserts `Uncover` on exactly the covers returned by
`adjacent_covered_tiles` for that coordinate (computed on the board after the
cell's own removal), while a `Bomb` or `BombNeighbor` parent inserts nothing. -/
theorem uncover_expands_only_on_empty (st : UncoverOut Coordinates) (e c : Coordinates) :
    (uncoverItem Coordinates st (e, some c)).inserted =
      st.inserted ++
        (match st.board.tile_map.tileAt c with
          | Tile.Empty => ((st.board.try_uncover_tile c).2).adjacent_covered_tiles c
          | Tile.Bomb => []
          | Tile.BombNeighbor _ => []) := by
  rw [uncoverItem_inserted_eq]
  cases st.board.tile_map.tileAt c <;> rfl

/-- C2 (code divergence): triggering uncover on the bomb cell of a 1 by 1 board
removes exactly that one cover and propagates nothing, but emits no event at
all: the `BombExplosionEvent` required by the spec is a TODO in the source
(`uncover_tiles` has no event writer; a bomb only logs "Boom !"). -/
theorem bomb_uncover_emits_no_event :
    tmOneBomb.tileAt ⟨0, 0⟩ = Tile.Bomb ∧
    (uncoverFrame (freshBoard tmOneBomb) [⟨0, 0⟩]).1.covered_tiles = [] ∧
    (uncoverFrame (freshBoard tmOneBomb) [⟨0, 0⟩]).2 = [] ∧
    (uncover_tiles Coordinates (freshBoard tmOneBomb)
      ([⟨0, 0⟩].map fun c => (c, some c))).events = [] := by
  decide

/-- C3 (code divergence): after the flood fill drains on a 1 by 1 bombless
board the board satisfies `is_completed`, yet no event was emitted:
`uncover_tiles` never calls `is_completed` and never sends
`BoardCompletedEvent` (it has no event writer). -/
theorem completion_never_emitted :
    (floodResult tmOneEmpty ⟨0, 0⟩).2 = [] ∧
    (floodResult tmOneEmpty ⟨0, 0⟩).1.is_completed = true ∧
    (uncover_tiles Coordinates (freshBoard tmOneEmpty)
      ([⟨0, 0⟩].map fun c => (c, some c))).events = [] := by
  decide

/-- C9: every cover tagged `Uncover` is despawned unconditionally, its entity
appearing in the despawn list regardless of the parent lookup result; and an
iteration whose parent lookup fails changes nothing else: the board (hence the
coordinate's `covered_tiles` entry) is untouched and no `Uncover` is
inserted. -/
theorem despawn_unconditional_lookup_failure_skips :
    (∀ (E : Type) (b : Board) (tagged : List (E × Option Coordinates)),
      (uncover_tiles E b tagged).despawned = tagged.map Prod.fst) ∧
    (∀ (E : Type) (st : UncoverOut E) (e : E),
      uncoverItem E st (e, none) = { st with despawned := st.despawned ++ [e] }) :=
  ⟨uncover_tiles_despawned, fun _ _ _ => rfl⟩

/-! ### spawn_tiles and create_board lemmas -/

theorem spawn_fold_covered (tm : TileMap) (l : List Coordinates) :
    ∀ st : List Coordinates × Option Coordinates,
      (l.foldl (spawnStep tm) st).1 = st.1 ++ l := by
  induction l with
  | nil => intro st; simp
  | cons c rest ih =>
    intro st
    rw [List.foldl_cons, ih]
    simp [spawnStep]

theorem spawn_fold_safe (tm : TileMap) (l : List Coordinates) :
    ∀ st : List Coordinates × Option Coordinates,
      (l.foldl (spawnStep tm) st).2 =
        match st.2 with
        | some e => some e
        | none => l.find? fun c => decide (tm.tileAt c = Tile.Empty) := by
  induction l with
  | nil =>
    intro st
    rcases st with ⟨cov, safe⟩
    cases safe <;> rfl
  | cons c rest ih =>
    intro st
    rw [List.foldl_cons, ih]
    rcases st with ⟨cov, safe⟩
    cases safe with
    | some e => rfl
    | none =>
      by_cases htile : tm.tileAt c = Tile.Empty
      · simp [spawnStep, htile, List.find?_cons_of_pos]
      · simp [spawnStep, htile, List.find?_cons_of_neg]

theorem spawn_tiles_covered (tm : TileMap) :
    (spawn_tiles tm).1 = allCoords tm.width tm.height := by
  unfold spawn_tiles
  rw [spawn_fold_covered]
  rfl

theorem spawn_tiles_safe (tm : TileMap) :
    (spawn_tiles tm).2 =
      (allCoords tm.width tm.height).find? fun c => decide (tm.tileAt c = Tile.Empty) := by
  unfold spawn_tiles
  rw [spawn_fold_safe]

theorem TileMap.empty_of_nonzero {w h : Nat} (hw : w ≠ 0) (hh : h ≠ 0) :
    TileMap.empty w h = some { width := w, height := h, bombs := [] } := by
  unfold TileMap.empty
  rw [if_neg]
  rintro (h0 | h0)
  · exact hw h0
  · exact hh h0

theorem create_board_eq_none (options : BoardOptions) (order : List Coordinates)
    (h0 : options.map_width = 0 ∨ options.map_height = 0) :
    create_board options order = none := by
  unfold create_board TileMap.empty
  rw [if_pos h0]
  rfl

theorem create_board_eq_some (options : BoardOptions) (order : List Coordinates)
    (hw : options.map_width ≠ 0) (hh : options.map_height ≠ 0) :
    create_board options order = some
      ({ tile_map := TileMap.set_bombs
            { width := options.map_width, height := options.map_height, bombs := [] }
            order options.bomb_count
         covered_tiles := (spawn_tiles (TileMap.set_bombs
            { width := options.map_width, height := options.map_height, bombs := [] }
            order options.bomb_count)).1
         marked_tiles := [] },
       if options.safe_start then
         match (spawn_tiles (TileMap.set_bombs
            { width := options.map_width, height := options.map_height, bombs := [] }
            order options.bomb_count)).2 with
         | some e => [e]
         | none => []
       else []) := by
  unfold create_board
  rw [TileMap.empty_of_nonzero hw hh]
  rfl

/-- C10: whenever `create_board` succeeds in building the `Board` resource,
`covered_tiles` holds exactly one cover entry per coordinate with
`x < width` and `y < height` (no cell missing, none duplicated) and
`marked_tiles` is empty. -/
theorem create_board_covers_every_cell (options : BoardOptions) (order : List Coordinates)
    (b : Board) (pending : List Coordinates)
    (h : create_board options order = some (b, pending)) :
    b.covered_tiles.Nodup ∧
    (∀ c : Coordinates, c ∈ b.covered_tiles ↔
      c.x < options.map_width ∧ c.y < options.map_height) ∧
    b.marked_tiles = [] := by
  by_cases h0 : options.map_width = 0 ∨ options.map_height = 0
  · rw [create_board_eq_none options order h0] at h
    cases h
  · push_neg at h0
    rw [create_board_eq_some options order h0.1 h0.2, Option.some_inj] at h
    injection h with hb hp
    subst hb
    have hcov : (spawn_tiles (TileMap.set_bombs
        { width := options.map_width, height := options.map_height, bombs := [] }
        order options.bomb_count)).1
        = allCoords options.map_width options.map_height := by
      rw [spawn_tiles_covered]
      rfl
    refine ⟨?_, ?_, rfl⟩
    · show (spawn_tiles (TileMap.set_bombs
        { width := options.map_width, height := options.map_height, bombs := [] }
        order options.bomb_count)).1.Nodup
      rw [hcov]
      exact nodup_allCoords _ _
    · intro c
      show c ∈ (spawn_tiles (TileMap.set_bombs
        { width := options.map_width, height := options.map_height, bombs := [] }
        order options.bomb_count)).1 ↔ _
      rw [hcov]
      exact mem_allCoords _ _ c

theorem create_board_covers_every_cell_witness :
    create_board (BoardOptions.mk 1 1 0 false) (allCoords 1 1) =
      some ({ tile_map := { width := 1, height := 1, bombs := [] },
              covered_tiles := [⟨0, 0⟩], marked_tiles := [] }, []) ∧
    ({ tile_map := { width := 1, height := 1, bombs := [] },
       covered_tiles := [⟨0, 0⟩], marked_tiles := [] } : Board).covered_tiles.Nodup :=
  ⟨by decide,
    (create_board_covers_every_cell (BoardOptions.mk 1 1 0 false) (allCoords 1 1)
      { tile_map := { width := 1, height := 1, bombs := [] },
        covered_tiles := [⟨0, 0⟩], marked_tiles := [] } [] (by decide)).1⟩

/-- C6 (counterexample): with `safe_start` set on a 2 by 2 board holding one
bomb, every cell is a bomb or a bomb neighbor, so board construction succeeds
but no safe-start cover exists and no cover is tagged `Uncover` — refuting
that exactly one guaranteed-empty cell is always auto-triggered. -/
theorem safe_start_none_triggered :
    (BoardOptions.mk 2 2 1 true).safe_start = true ∧
    (create_board (BoardOptions.mk 2 2 1 true) (allCoords 2 2)).map
      (fun r => r.2) = some [] ∧
    (create_board (BoardOptions.mk 2 2 1 true) (allCoords 2 2)).map
      (fun r => r.2.length) = some 0 := by
  decide

/-- C6 (amended): if `safe_start` is true then, whenever board construction
succeeds (nonzero dimensions), the covers tagged `Uncover` right after board
generation are exactly given by the first cell in grid order (y outer, x
inner) whose tile is `Tile::Empty`: that single cover when such a cell
exists, and no cover at all when the grid has no empty tile. -/
theorem safe_start_first_empty (options : BoardOptions) (order : List Coordinates)
    (hs : options.safe_start = true)
    (hw : options.map_width ≠ 0) (hh : options.map_height ≠ 0) :
    (create_board options order).map (fun r => r.2) =
      some (((allCoords options.map_width options.map_height).find? fun c =>
        decide ((TileMap.set_bombs
          { width := options.map_width, height := options.map_height, bombs := [] }
          order options.bomb_count).tileAt c = Tile.Empty)).toList) := by
  rw [create_board_eq_some options order hw hh, Option.map_some']
  refine congrArg some ?_
  show (if options.safe_start then
      match (spawn_tiles (TileMap.set_bombs
        { width := options.map_width, height := options.map_height, bombs := [] }
        order options.bomb_count)).2 with
      | some e => [e]
      | none => []
    else []) = _
  rw [hs, if_pos rfl, spawn_tiles_safe]
  have hw2 : (TileMap.set_bombs
      { width := options.map_width, height := options.map_height, bombs := [] }
      order options.bomb_count).width = options.map_width := rfl
  have hh2 : (TileMap.set_bombs
      { width := options.map_width, height := options.map_height, bombs := [] }
      order options.bomb_count).height = options.map_height := rfl
  rw [hw2, hh2]
  cases (allCoords options.map_width options.map_height).find? fun c =>
      decide ((TileMap.set_bombs
        { width := options.map_width, height := options.map_height, bombs := [] }
        order options.bomb_count).tileAt c = Tile.Empty) with
  | none => rfl
  | some e => rfl

theorem safe_start_first_empty_witness :
    ((BoardOptions.mk 2 2 0 true).safe_start = true ∧ (2 : Nat) ≠ 0) ∧
    (create_board (BoardOptions.mk 2 2 0 true) (allCoords 2 2)).map (fun r => r.2) =
      some (((allCoords 2 2).find? fun c =>
        decide ((TileMap.set_bombs { width := 2, height := 2, bombs := [] }
          (allCoords 2 2) 0).tileAt c = Tile.Empty)).toList) :=
  ⟨⟨rfl, by decide⟩,
    safe_start_first_empty (BoardOptions.mk 2 2 0 true) (allCoords 2 2) rfl
      (by decide) (by decide)⟩

/-- C8 (counterexample): a bomb count exceeding the cell count is not
rejected before grid construction: requesting 9 bombs on a 2 by 2 grid, board
construction succeeds and the placement is silently clamped to 4 bombs. -/
theorem config_not_rejected :
    (create_board (BoardOptions.mk 2 2 9 false) (allCoords 2 2)).isSome = true ∧
    (create_board (BoardOptions.mk 2 2 9 false) (allCoords 2 2)).map
      (fun r => r.1.tile_map.bombs.length) = some 4 ∧
    (BoardOptions.mk 2 2 9 false).bomb_count = 9 := by
  decide

/-- C8 (amended): zero width or height is rejected before the grid is built
(`TileMap::empty` fails, aborting `create_board`), but a bomb count exceeding
`width * height` is not rejected: for nonzero dimensions, with the sampling
order a permutation of the grid, construction always succeeds, silently
clamping the placement to exactly `min bomb_count (width * height)` bombs,
with one cover per cell and no marks. -/
theorem create_board_rejects_zero_not_bombs (options : BoardOptions)
    (order : List Coordinates)
    (hperm : order.Perm (allCoords options.map_width options.map_height)) :
    ((options.map_width = 0 ∨ options.map_height = 0) →
      create_board options order = none) ∧
    (options.map_width ≠ 0 → options.map_height ≠ 0 →
      (create_board options order).map (fun r => r.1.tile_map.bombs.length) =
        some (min options.bomb_count (options.map_width * options.map_height)) ∧
      (create_board options order).map (fun r => r.1.covered_tiles.length) =
        some (options.map_width * options.map_height) ∧
      (create_board options order).map (fun r => r.1.marked_tiles) =
        some []) := by
  refine ⟨fun h0 => create_board_eq_none options order h0, ?_⟩
  intro hw hh
  rw [create_board_eq_some options order hw hh]
  have hfilter : (order.filter fun c =>
      decide (c.x < options.map_width ∧ c.y < options.map_height)) = order := by
    rw [List.filter_eq_self]
    intro c hc
    exact decide_eq_true ((mem_allCoords _ _ _).1 (hperm.mem_iff.1 hc))
  have hnodup : order.Nodup := hperm.nodup_iff.2 (nodup_allCoords _ _)
  refine ⟨?_, ?_, ?_⟩
  · rw [Option.map_some']
    refine congrArg some ?_
    show (((order.filter fun c =>
        decide (c.x < options.map_width ∧ c.y < options.map_height)).dedup).take
        options.bomb_count).length = _
    rw [hfilter, List.dedup_eq_self.2 hnodup, List.length_take,
      hperm.length_eq, length_allCoords]
  · rw [Option.map_some']
    refine congrArg some ?_
    show (spawn_tiles (TileMap.set_bombs
        { width := options.map_width, height := options.map_height, bombs := [] }
        order options.bomb_count)).1.length = _
    rw [spawn_tiles_covered, length_allCoords]
    rfl
  · rfl

theorem create_board_rejects_zero_not_bombs_witness :
    ((allCoords 3 2).Perm (allCoords 3 2) ∧ (3 : Nat) ≠ 0 ∧ (2 : Nat) ≠ 0 ∧
      (create_board (BoardOptions.mk 3 2 99 false) (allCoords 3 2)).map
        (fun r => r.1.tile_map.bombs.length) = some (min 99 (3 * 2))) ∧
    (([] : List Coordinates).Perm (allCoords 0 2) ∧
      create_board (BoardOptions.mk 0 2 5 false) [] = none) :=
  ⟨⟨List.Perm.refl _, by decide, by decide,
    ((create_board_rejects_zero_not_bombs (BoardOptions.mk 3 2 99 false)
      (allCoords 3 2) (List.Perm.refl _)).2 (by decide) (by decide)).1⟩,
   ⟨List.Perm.refl _,
    (create_board_rejects_zero_not_bombs (BoardOptions.mk 0 2 5 false)
      [] (List.Perm.refl _)).1 (Or.inl rfl)⟩⟩

/-- C7 (code divergence): `input_handling` never sends a mark event: its
right-click arm is a TODO stub.  In particular a right click whose cursor
resolves to an in-bounds coordinate while running and unpaused emits nothing
at all, and universally no `tileMark` event ever appears in its output. -/
theorem right_click_emits_nothing :
    (input_handling Unit false (some ())
      (fun _ => some ⟨1, 1⟩) [MouseButtonInput.mk MouseButton.Right true] = []) ∧
    (∀ (P : Type) (paused : Bool) (cursor : Option P)
      (resolve : P → Option Coordinates) (clicks : List MouseButtonInput),
      (input_handling P paused cursor resolve clicks).countP
        (fun e => match e with
          | GameEvent.tileMark _ => true
          | _ => false) = 0) := by
  refine ⟨rfl, ?_⟩
  intro P paused cursor resolve clicks
  rw [List.countP_eq_zero]
  intro e hmem
  unfold input_handling at hmem
  split at hmem
  · exact absurd hmem (List.not_mem_nil _)
  · rw [List.mem_filterMap] at hmem
    obtain ⟨ev, _, hev⟩ := hmem
    split at hev
    · split at hev
      · split at hev
        · split at hev
          · rw [Option.some_inj] at hev
            rw [← hev]
            simp
          · simp_all
          · simp_all
        · simp_all
      · simp_all
    · simp_all

/-! ### Paused-frame lemmas -/

theorem input_handling_paused (P : Type) (cursor : Option P)
    (resolve : P → Option Coordinates) (clicks : List MouseButtonInput) :
    input_handling P true cursor resolve clicks = [] := rfl

theorem trigger_event_handler_paused (b : Board) (evs : List GameEvent) :
    trigger_event_handler true b evs = [] := rfl

theorem uncoverFrame_snd_nodup (b : Board) (pending : List Coordinates) :
    (uncoverFrame b pending).2.Nodup := List.nodup_dedup _

theorem worldFrame_paused_eq (P : Type) (cursor : Option P)
    (resolve : P → Option Coordinates) (clicks : List MouseButtonInput)
    (b : Board) (pending : List Coordinates) :
    worldFrame P true cursor resolve clicks b pending =
      { board := (uncoverFrame b pending).1
        pending := (uncoverFrame b pending).2
        events := [] } := by
  simp only [worldFrame, input_handling_paused, trigger_event_handler_paused,
    List.filter_nil, List.append_nil,
    List.dedup_eq_self.2 (uncoverFrame_snd_nodup b pending)]

theorem pausedRun_eq_runFrames (P : Type) (cursor : Option P)
    (resolve : P → Option Coordinates) (clicks : List MouseButtonInput) (n : Nat) :
    ∀ st : Board × List Coordinates,
      pausedRun P cursor resolve clicks n st = runFrames n st := by
  induction n with
  | zero => intro st; rfl
  | succ n ih =>
    intro st
    rw [pausedRun, runFrames]
    by_cases hp : st.2 = []
    · rw [if_pos hp, if_pos hp]
    · rw [if_neg hp, if_neg hp]
      rw [worldFrame_paused_eq, ih]

/-- C5: while the session is paused every activation or mark intent is
swallowed — `input_handling` emits no event and `trigger_event_handler`
inserts no `Uncover` — but an in-flight flood fill is not interrupted:
`uncover_tiles` ignores the `Paused` resource, so a paused frame acts on the
board and the `Uncover` worklist exactly as the pure uncover step does and as
the unpaused frame does; it is scheduled `on_in_stack_update`, so it runs even
while the running state is inactive in the stack (where the input systems do
not); and iterated paused frames coincide with the plain uncover iteration,
hence covers tagged before the pause are still processed to exhaustion. -/
theorem paused_swallows_intents_not_flood_fill (P : Type) (cursor : Option P)
    (resolve : P → Option Coordinates) (clicks : List MouseButtonInput)
    (b : Board) (evs : List GameEvent) (pending : List Coordinates) :
    input_handling P true cursor resolve clicks = [] ∧
    trigger_event_handler true b evs = [] ∧
    worldFrame P true cursor resolve clicks b pending =
      { board := (uncoverFrame b pending).1
        pending := (uncoverFrame b pending).2
        events := [] } ∧
    (worldFrame P true cursor resolve clicks b pending).board =
      (worldFrame P false cursor resolve clicks b pending).board ∧
    (systemRuns SystemKind.uncoverTiles StateStatus.inactiveInStack = true ∧
      systemRuns SystemKind.inputHandling StateStatus.inactiveInStack = false ∧
      systemRuns SystemKind.triggerEventHandler StateStatus.inactiveInStack = false) ∧
    (∀ n : Nat,
      pausedRun P cursor resolve clicks n (b, pending) = runFrames n (b, pending)) ∧
    ((∀ c ∈ pending, c ∈ b.covered_tiles) →
      (pausedRun P cursor resolve clicks b.covered_tiles.length (b, pending)).2 = []) := by
  refine ⟨rfl, rfl, worldFrame_paused_eq P cursor resolve clicks b pending, rfl,
    ⟨rfl, rfl, rfl⟩, fun n => pausedRun_eq_runFrames P cursor resolve clicks n _, ?_⟩
  intro hsub
  rw [pausedRun_eq_runFrames]
  exact drain b.covered_tiles.length (b, pending) hsub (le_refl _)

theorem paused_flood_fill_witness :
    ((⟨0, 0⟩ : Coordinates) ∈ (freshBoard tmOneEmpty).covered_tiles) ∧
    (pausedRun Unit none (fun _ => none) []
      (freshBoard tmOneEmpty).covered_tiles.length
      (freshBoard tmOneEmpty, [⟨0, 0⟩])).2 = [] :=
  ⟨by decide,
    (paused_swallows_intents_not_flood_fill Unit none (fun _ => none) []
      (freshBoard tmOneEmpty) [] [⟨0, 0⟩]).2.2.2.2.2.2 (by decide)⟩
